import Mathlib

/-!
Verification of the safe arithmetic-expression evaluator
(`src/safe_eval.py` of functicons/calculator-mcp-server).

The Python pipeline is embedded shallowly:
numbers are modelled as rationals (`ℚ`), Python lists as `List`,
the exception hierarchy as the inductive type `Exc`, and each fallible
stage as a function into `Except Exc _`.
-/

/-- Exceptions of the evaluator.  `safeEvalError` is the base class
`SafeEvalError`; `unbalancedParenthesesError` and `unknownCharacterError`
are subclasses of `InvalidExpressionError` in the source, which is itself
a subclass of `SafeEvalError`.  `typeError` models Python's builtin
`TypeError`, which is outside the `SafeEvalError` taxonomy. -/
inductive Exc where
  | safeEvalError (msg : String)
  | invalidExpressionError (msg : String)
  | divisionByZeroError (msg : String)
  | unbalancedParenthesesError (msg : String)
  | unknownCharacterError (msg : String)
  | typeError (msg : String)
deriving DecidableEq, Repr

/-- Python `isinstance(e, SafeEvalError)`: every custom exception kind is a
`SafeEvalError`; a `TypeError` is not. -/
def Exc.isSafeEvalError : Exc → Bool
  | .typeError _ => false
  | _ => true

/-- A token of the evaluator: Python stores floats (here `ℚ`) and
one-character strings in one heterogeneous list. -/
inductive Token where
  | num (v : ℚ)
  | sym (s : String)
deriving DecidableEq, Repr

/-- `isinstance(t, (int, float))` on a token. -/
def isNumTok : Token → Bool
  | .num _ => true
  | .sym _ => false

/-! ### Tokenizer (`tokenize`) -/

/-- Numeric value of a digit string, most significant digit first. -/
def digitsVal (ds : List Char) : Nat :=
  ds.foldl (fun a c => 10 * a + (c.toNat - 48)) 0

/-- Value of a matched number literal: integer part digits and fractional
part digits, as Python `float` parses the regex match (here exact, in `ℚ`):
the value is `ip + fp / 10 ^ |fp|`, written over a common denominator. -/
def numVal (ip fp : List Char) : ℚ :=
  mkRat (digitsVal ip * 10 ^ fp.length + digitsVal fp) (10 ^ fp.length)

/-- The operator/parenthesis alphabet of the `OPERATOR` token class. -/
def opChars : List Char := ['+', '-', '*', '/', '(', ')']

/-- Splits the characters following a leading digit into: further integer
digits, fractional digits (present only when a dot follows the integer
part, matching the regex alternative with digits before the dot and an
optional dot plus zero or more digits), and the unconsumed rest. -/
def numSplit (rest : List Char) : List Char × List Char × List Char :=
  match rest.dropWhile Char.isDigit with
  | [] => (rest.takeWhile Char.isDigit, [], [])
  | c :: r2 =>
    if c = '.' then
      (rest.takeWhile Char.isDigit, r2.takeWhile Char.isDigit,
        r2.dropWhile Char.isDigit)
    else (rest.takeWhile Char.isDigit, [], c :: r2)

/-- The scanning loop of `tokenize`: at each position try, in order, a
number (digits with optional dot and fraction digits, or dot followed by
digits), an operator/parenthesis character, whitespace (skipped), and
otherwise fail with `UnknownCharacterError`.  The `Nat` argument is pure
fuel making the recursion structural: every step consumes at least one
character, so starting the loop with `length + 1` fuel (as `tokenize`
does) never reaches the fuel-exhausted branch — see `tokenizeLoop_fuel`. -/
def tokenizeLoop : Nat → List Char → Except Exc (List Token)
  | _, [] => .ok []
  | 0, _ :: _ => .error (.safeEvalError "Tokenizer fuel exhausted.")
  | fuel + 1, c :: rest =>
    if c.isDigit then
      let s := numSplit rest
      (tokenizeLoop fuel s.2.2).map
        (fun ts => Token.num (numVal (c :: s.1) s.2.1) :: ts)
    else if c = '.' then
      if (rest.headD ' ').isDigit then
        (tokenizeLoop fuel (rest.dropWhile Char.isDigit)).map
          (fun ts => Token.num (numVal [] (rest.takeWhile Char.isDigit)) :: ts)
      else .error (.unknownCharacterError "Unknown character in expression.")
    else if c ∈ opChars then
      (tokenizeLoop fuel rest).map (fun ts => Token.sym (String.mk [c]) :: ts)
    else if c.isWhitespace then
      tokenizeLoop fuel rest
    else .error (.unknownCharacterError "Unknown character in expression.")

/-- `tokenize`: converts an infix expression string into a token list. -/
def tokenize (s : String) : Except Exc (List Token) :=
  tokenizeLoop (s.data.length + 1) s.data

instance {ε α : Type} [DecidableEq ε] [DecidableEq α] : DecidableEq (Except ε α) :=
  fun x y =>
    match x, y with
    | .ok a, .ok b =>
      if h : a = b then .isTrue (by rw [h])
      else .isFalse (by intro hc; injection hc; contradiction)
    | .error a, .error b =>
      if h : a = b then .isTrue (by rw [h])
      else .isFalse (by intro hc; injection hc; contradiction)
    | .ok _, .error _ => .isFalse (fun hc => Except.noConfusion hc)
    | .error _, .ok _ => .isFalse (fun hc => Except.noConfusion hc)

/-! ### Unary-sign folding pass (`infix_to_rpn`, first loop) -/

/-- Python `token in ('+', '-')`. -/
def isSignSym : Token → Bool
  | .sym s => s == "+" || s == "-"
  | .num _ => false

/-- Python `i == 0 or (isinstance(tokens[i-1], str) and tokens[i-1] in
('(', '+', '-', '*', '/'))`, with `none` standing for `i == 0`. -/
def prevAllowsUnary : Option Token → Bool
  | none => true
  | some (.sym s) => s == "(" || s == "+" || s == "-" || s == "*" || s == "/"
  | some (.num _) => false

/-- Python `i + 1 < len(tokens) and isinstance(tokens[i+1], (int, float))`
on the tokens following position `i`. -/
def nextIsNum : List Token → Bool
  | .num _ :: _ => true
  | _ => false

/-- The full `is_unary` test of the folding loop. -/
def unaryCond (prev : Option Token) (t : Token) (rest : List Token) : Bool :=
  isSignSym t && prevAllowsUnary prev && nextIsNum rest

/-- The unary-folding loop of `infix_to_rpn`: `prev` is the original token
just before the current position (`none` at the start).  When the unary
condition holds, the sign and the following number are folded into one
signed number and both are consumed; otherwise the token is kept. -/
def foldUnary : Option Token → List Token → List Token
  | _, [] => []
  | _, [t] => [t]
  | prev, t :: .num v :: rest2 =>
    if isSignSym t && prevAllowsUnary prev then
      .num (if t = .sym "-" then -v else v) :: foldUnary (some (.num v)) rest2
    else t :: foldUnary (some t) (.num v :: rest2)
  | _, t :: .sym s2 :: rest2 => t :: foldUnary (some t) (.sym s2 :: rest2)

/-! ### Shunting-yard pass (`infix_to_rpn`, second loop) -/

/-- `PRECEDENCE.get(s, 0)`: the precedence table with default `0`. -/
def precGet (s : String) : Nat :=
  if s = "+" ∨ s = "-" then 1 else if s = "*" ∨ s = "/" then 2 else 0

/-- `s in PRECEDENCE`. -/
def inPrecedence (s : String) : Bool :=
  s == "+" || s == "-" || s == "*" || s == "/"

/-- `ASSOCIATIVITY[s] == 'L'` (true for all four operators). -/
def assocIsLeft (s : String) : Bool :=
  s == "+" || s == "-" || s == "*" || s == "/"

/-- The condition of the inner `while` loop of the shunting-yard pass:
the stack top is popped while it is not a left parenthesis and its
precedence is greater than the incoming operator's, or equal with the
incoming operator left-associative. -/
def shouldPop (tok top : String) : Bool :=
  top != "(" && (decide (precGet top > precGet tok) ||
    (decide (precGet top = precGet tok) && assocIsLeft tok))

/-- Runs the inner `while` loop: returns the tokens popped to the output
queue (in pop order) and the remaining operator stack. -/
def popWhile (tok : String) : List String → List Token × List String
  | [] => ([], [])
  | top :: st =>
    if shouldPop tok top then
      let r := popWhile tok st
      (Token.sym top :: r.1, r.2)
    else ([], top :: st)

/-- The `)` handler: pops operators to the output queue until a left
parenthesis is found and discarded; `none` when the stack empties first. -/
def popUntilParen : List String → Option (List Token × List String)
  | [] => none
  | top :: st =>
    if top = "(" then some ([], st)
    else (popUntilParen st).map (fun r => (Token.sym top :: r.1, r.2))

/-- The final drain of the operator stack; a remaining left parenthesis
raises `UnbalancedParenthesesError`. -/
def drainStack : List String → Except Exc (List Token)
  | [] => .ok []
  | top :: st =>
    if top = "(" then
      .error (.unbalancedParenthesesError "Mismatched or missing right parenthesis.")
    else (drainStack st).map (fun d => Token.sym top :: d)

/-- The main shunting-yard loop over the (already unary-folded) tokens,
carrying the output queue and the operator stack (top first). -/
def rpnLoop : List Token → List Token → List String → Except Exc (List Token)
  | [], out, stack => (drainStack stack).map (fun d => out ++ d)
  | .num v :: rest, out, stack => rpnLoop rest (out ++ [.num v]) stack
  | .sym s :: rest, out, stack =>
    if inPrecedence s then
      let r := popWhile s stack
      rpnLoop rest (out ++ r.1) (s :: r.2)
    else if s = "(" then rpnLoop rest out ("(" :: stack)
    else if s = ")" then
      match popUntilParen stack with
      | none =>
        .error (.unbalancedParenthesesError "Mismatched or missing left parenthesis.")
      | some r => rpnLoop rest (out ++ r.1) r.2
    else .error (.invalidExpressionError "Unknown token during RPN conversion.")

/-- `infix_to_rpn`: unary folding followed by the shunting-yard loop. -/
def infix_to_rpn (tokens : List Token) : Except Exc (List Token) :=
  rpnLoop (foldUnary none tokens) [] []

/-! ### RPN evaluator (`evaluate_rpn`) -/

/-- `s in OPERATORS`. -/
def inOperators (s : String) : Bool :=
  s == "+" || s == "-" || s == "*" || s == "/"

/-- `OPERATORS[s](op1, op2)` for the four binary operators. -/
def applyOp (s : String) (op1 op2 : ℚ) : ℚ :=
  if s = "+" then op1 + op2
  else if s = "-" then op1 - op2
  else if s = "*" then op1 * op2
  else op1 / op2

/-- The evaluation loop of `evaluate_rpn` over the operand stack (top
first): numbers are pushed; an operator pops `op2` then `op1` and pushes
`op1 <op> op2`, failing on a short stack or on division by zero. -/
def evalRpnLoop : List Token → List ℚ → Except Exc (List ℚ)
  | [], st => .ok st
  | .num v :: rest, st => evalRpnLoop rest (v :: st)
  | .sym s :: rest, st =>
    if inOperators s then
      match st with
      | op2 :: op1 :: st2 =>
        if s = "/" ∧ op2 = 0 then
          .error (.divisionByZeroError "Division by zero in expression.")
        else evalRpnLoop rest (applyOp s op1 op2 :: st2)
      | _ =>
        .error (.invalidExpressionError "Invalid RPN expression: not enough operands for operator.")
    else .error (.invalidExpressionError "Unknown token in RPN expression.")

/-- `evaluate_rpn`: runs the loop on an empty stack and requires exactly
one remaining operand. -/
def evaluate_rpn (rpn : List Token) : Except Exc ℚ :=
  match evalRpnLoop rpn [] with
  | .error e => .error e
  | .ok [v] => .ok v
  | .ok _ =>
    .error (.invalidExpressionError "Invalid RPN expression: stack should have 1 result.")

/-! ### Orchestrator (`safe_evaluate_expression`) -/

/-- Python `str.strip`: removes leading and trailing whitespace. -/
def stripChars (cs : List Char) : List Char :=
  ((cs.dropWhile Char.isWhitespace).reverse.dropWhile Char.isWhitespace).reverse

/-- The `except SafeEvalError: raise / except Exception as e: raise
SafeEvalError(...)` boundary: exceptions already in the `SafeEvalError`
taxonomy pass through unchanged, anything else is rewrapped as the base
kind. -/
def wrapExc (e : Exc) : Exc :=
  if e.isSafeEvalError then e
  else .safeEvalError "An unexpected error occurred during evaluation."

/-- `safe_evaluate_expression`: strips the input, rejects empty input,
runs tokenize, the empty-token check, infix-to-RPN, the empty-RPN checks
and the RPN evaluator, wrapping any non-taxonomy failure. -/
def safe_evaluate_expression (expression : String) : Except Exc ℚ :=
  let stripped := stripChars expression.data
  if stripped = [] then
    .error (.invalidExpressionError "Expression cannot be empty or just whitespace.")
  else
    match tokenizeLoop (stripped.length + 1) stripped with
    | .error e => .error (wrapExc e)
    | .ok tokens =>
      if tokens = [] then
        .error (.invalidExpressionError "Expression contains no evaluable tokens after tokenization.")
      else
        match infix_to_rpn tokens with
        | .error e => .error (wrapExc e)
        | .ok rpn =>
          if rpn = [] then
            if tokens.any isNumTok then
              .error (.invalidExpressionError "Expression with numbers resulted in empty RPN.")
            else
              .error (.invalidExpressionError "Expression results in empty RPN or has no evaluable content.")
          else
            match evaluate_rpn rpn with
            | .error e => .error (wrapExc e)
            | .ok v => .ok v

/-! ### Reference definitions for the correctness claim

The following definitions are the second side of the refinement claim:
they follow the specification's words ("standard precedence
(multiplicative over additive) and left-associativity arithmetic
evaluation"), not the source.  An arithmetic expression is parsed by a
recursive-descent parser for the standard grammar
`E → T ((+|-) T)*`, `T → F ((*|/) F)*`, `F → number | ( E )`,
with the loops building left-nested syntax trees, and then evaluated
recursively with exact rational arithmetic. -/

/-- A binary arithmetic operator. -/
inductive Op where
  | add | sub | mul | div
deriving DecidableEq, Repr

/-- The token symbol of an operator. -/
def Op.symStr : Op → String
  | .add => "+"
  | .sub => "-"
  | .mul => "*"
  | .div => "/"

/-- Abstract syntax of an arithmetic expression. -/
inductive Expr where
  | lit (v : ℚ)
  | bin (op : Op) (a b : Expr)
deriving DecidableEq, Repr

/-- Standard recursive evaluation of an expression; `none` exactly when a
division by zero occurs. -/
def Expr.evalOpt : Expr → Option ℚ
  | .lit v => some v
  | .bin op a b =>
    match a.evalOpt, b.evalOpt with
    | some x, some y =>
      match op with
      | .add => some (x + y)
      | .sub => some (x - y)
      | .mul => some (x * y)
      | .div => if y = 0 then none else some (x / y)
    | _, _ => none

/-- Postorder (RPN) serialization of an expression. -/
def rpnOf : Expr → List Token
  | .lit v => [.num v]
  | .bin op a b => rpnOf a ++ rpnOf b ++ [.sym op.symStr]

mutual

/-- Parses a factor: a number, or a parenthesized expression.  The `Nat`
argument is fuel making the mutual recursion structural; every recursive
call decreases it, so any sufficiently large value gives the same result. -/
def specParseF : Nat → List Token → Option (Expr × List Token)
  | 0, _ => none
  | _ + 1, .num v :: rest => some (.lit v, rest)
  | fuel + 1, .sym s :: rest =>
    if s = "(" then
      match specParseE fuel rest with
      | some (e, .sym s2 :: rest2) => if s2 = ")" then some (e, rest2) else none
      | _ => none
    else none
  | _ + 1, [] => none

/-- Parses a term: a factor followed by zero or more `*`/`/` factors,
left-associated. -/
def specParseT : Nat → List Token → Option (Expr × List Token)
  | 0, _ => none
  | fuel + 1, ts =>
    match specParseF fuel ts with
    | some (f, rest) => specParseTLoop fuel f rest
    | none => none

/-- The left-associative `*`/`/` loop of a term. -/
def specParseTLoop : Nat → Expr → List Token → Option (Expr × List Token)
  | 0, _, _ => none
  | fuel + 1, acc, .sym s :: rest =>
    if s = "*" ∨ s = "/" then
      match specParseF fuel rest with
      | some (f, rest2) =>
        specParseTLoop fuel (.bin (if s = "*" then .mul else .div) acc f) rest2
      | none => none
    else some (acc, .sym s :: rest)
  | _ + 1, acc, ts => some (acc, ts)

/-- Parses an expression: a term followed by zero or more `+`/`-` terms,
left-associated. -/
def specParseE : Nat → List Token → Option (Expr × List Token)
  | 0, _ => none
  | fuel + 1, ts =>
    match specParseT fuel ts with
    | some (t, rest) => specParseELoop fuel t rest
    | none => none

/-- The left-associative `+`/`-` loop of an expression. -/
def specParseELoop : Nat → Expr → List Token → Option (Expr × List Token)
  | 0, _, _ => none
  | fuel + 1, acc, .sym s :: rest =>
    if s = "+" ∨ s = "-" then
      match specParseT fuel rest with
      | some (t, rest2) =>
        specParseELoop fuel (.bin (if s = "+" then .add else .sub) acc t) rest2
      | none => none
    else some (acc, .sym s :: rest)
  | _ + 1, acc, ts => some (acc, ts)

end

/-- Scans a token list tracking the previous token and checks that no
`+`/`-` symbol ever stands in a unary position (first, or preceded by one
of the five trigger symbols); on such lists the unary-folding pass is the
identity. -/
def binaryPosOK : Option Token → List Token → Bool
  | _, [] => true
  | prev, t :: rest => !(isSignSym t && prevAllowsUnary prev) && binaryPosOK (some t) rest

/-! ## General lemmas -/

theorem dropWhileLenLe (p : Char → Bool) (l : List Char) :
    (l.dropWhile p).length ≤ l.length :=
  (List.dropWhile_suffix p).length_le

theorem numSplit_length (rest : List Char) :
    (numSplit rest).2.2.length ≤ rest.length := by
  have h1 := dropWhileLenLe Char.isDigit rest
  unfold numSplit
  cases h : rest.dropWhile Char.isDigit with
  | nil => simp
  | cons c r2 =>
    rw [h] at h1
    simp only [List.length_cons] at h1
    show (if c = '.' then
        (rest.takeWhile Char.isDigit, r2.takeWhile Char.isDigit,
          r2.dropWhile Char.isDigit)
      else (rest.takeWhile Char.isDigit, [], c :: r2)).2.2.length ≤ rest.length
    by_cases hc : c = '.'
    · have h2 := dropWhileLenLe Char.isDigit r2
      rw [if_pos hc]
      show (r2.dropWhile Char.isDigit).length ≤ rest.length
      omega
    · rw [if_neg hc]
      show (c :: r2).length ≤ rest.length
      simp only [List.length_cons]
      omega

/-- The fuel argument of `tokenizeLoop` is irrelevant as long as it
exceeds the number of characters: each iteration consumes at least one. -/
theorem tokenizeLoop_fuel : ∀ f1 f2 cs, cs.length < f1 → cs.length < f2 →
    tokenizeLoop f1 cs = tokenizeLoop f2 cs := by
  intro f1
  induction f1 with
  | zero => intro f2 cs h1 _; omega
  | succ f ih =>
    intro f2 cs h1 h2
    match f2, cs with
    | 0, [] => rfl
    | g + 1, [] => rfl
    | 0, c :: rest => simp only [List.length_cons] at h2; omega
    | g + 1, c :: rest =>
      simp only [List.length_cons] at h1 h2
      show tokenizeLoop (f + 1) (c :: rest) = tokenizeLoop (g + 1) (c :: rest)
      have hnum := numSplit_length rest
      have hdrop := dropWhileLenLe Char.isDigit rest
      simp only [tokenizeLoop]
      rw [ih g ((numSplit rest).2.2) (by omega) (by omega),
        ih g (rest.dropWhile Char.isDigit) (by omega) (by omega),
        ih g rest (by omega) (by omega)]

/-! ## Lemmas about the RPN evaluator -/

/-- A binary operator with two operands available pops `op2` then `op1`
and pushes `applyOp s op1 op2`, except in the guarded division case. -/
theorem evalRpnLoop_binop (s : String) (rest : List Token) (op1 op2 : ℚ)
    (st : List ℚ) (hs : inOperators s = true) (hdz : ¬(s = "/" ∧ op2 = 0)) :
    evalRpnLoop (.sym s :: rest) (op2 :: op1 :: st) =
      evalRpnLoop rest (applyOp s op1 op2 :: st) := by
  simp only [evalRpnLoop, hs, if_true, if_neg hdz]

/-- Division with a zero second operand stops with `DivisionByZeroError`
before the operation is applied. -/
theorem evalRpnLoop_divzero (rest : List Token) (op1 : ℚ) (st : List ℚ) :
    evalRpnLoop (.sym "/" :: rest) (0 :: op1 :: st) =
      .error (.divisionByZeroError "Division by zero in expression.") := by
  simp [evalRpnLoop, inOperators]

/-- A binary operator with fewer than two stacked operands stops with
`InvalidExpressionError`. -/
theorem evalRpnLoop_short (s : String) (rest : List Token) (st : List ℚ)
    (hs : inOperators s = true) (hlen : st.length < 2) :
    evalRpnLoop (.sym s :: rest) st =
      .error (.invalidExpressionError
        "Invalid RPN expression: not enough operands for operator.") := by
  match st with
  | [] => simp [evalRpnLoop, hs]
  | [x] => simp [evalRpnLoop, hs]
  | a :: b :: st2 => simp only [List.length_cons] at hlen; omega

/-- A final stack with any count other than one yields
`InvalidExpressionError`. -/
theorem evaluate_rpn_badstack (rpn : List Token) (st : List ℚ)
    (h : evalRpnLoop rpn [] = .ok st) (hlen : st.length ≠ 1) :
    evaluate_rpn rpn =
      .error (.invalidExpressionError
        "Invalid RPN expression: stack should have 1 result.") := by
  unfold evaluate_rpn
  rw [h]
  match st with
  | [] => rfl
  | [v] => simp at hlen
  | a :: b :: r => rfl

/-! ## Lemmas about the shunting-yard stack helpers -/

/-- `popWhile` pops exactly a prefix on which `shouldPop` holds. -/
theorem popWhile_spec (tok : String) : ∀ stk : List String,
    ∃ pre, stk = pre ++ (popWhile tok stk).2 ∧
      (popWhile tok stk).1 = pre.map Token.sym ∧
      ∀ p ∈ pre, shouldPop tok p = true := by
  intro stk
  induction stk with
  | nil => exact ⟨[], by simp [popWhile]⟩
  | cons top st ih =>
    by_cases h : shouldPop tok top = true
    · obtain ⟨pre, h1, h2, h3⟩ := ih
      refine ⟨top :: pre, ?_, ?_, ?_⟩
      · simp only [popWhile, h, if_true]
        simpa using h1
      · simp only [popWhile, h, if_true, List.map_cons]
        simpa using h2
      · intro p hp
        rcases List.mem_cons.1 hp with hp | hp
        · rw [hp]; exact h
        · exact h3 p hp
    · rw [Bool.not_eq_true] at h
      exact ⟨[], by simp [popWhile, h]⟩

/-- `popWhile` over a poppable prefix followed by a stopping stack. -/
theorem popWhile_exact (tok : String) (P stk : List String)
    (hP : ∀ p ∈ P, shouldPop tok p = true)
    (hstop : ∀ s r, stk = s :: r → shouldPop tok s = false) :
    popWhile tok (P ++ stk) = (P.map Token.sym, stk) := by
  induction P with
  | nil =>
    cases stk with
    | nil => rfl
    | cons s r => simp [popWhile, hstop s r rfl]
  | cons p P ih =>
    have hp := hP p (List.mem_cons_self p P)
    have ih2 := ih (fun q hq => hP q (List.mem_cons_of_mem p hq))
    simp only [List.cons_append, popWhile, hp, if_true, List.map_cons,
      List.append_eq, ih2]

/-- `popUntilParen` on a paren-free stack empties it and reports failure. -/
theorem popUntilParen_none : ∀ stk : List String, "(" ∉ stk →
    popUntilParen stk = none := by
  intro stk
  induction stk with
  | nil => intro _; rfl
  | cons top st ih =>
    intro h
    have htop : top ≠ "(" := fun hc => h (by rw [hc]; exact List.mem_cons_self _ _)
    have hrest : "(" ∉ st := fun hc => h (List.mem_cons_of_mem _ hc)
    simp [popUntilParen, fun hc : top = "(" => htop hc, ih hrest]

/-- `popUntilParen` over a paren-free prefix followed by a left
parenthesis pops the prefix and discards the parenthesis. -/
theorem popUntilParen_exact (P : List String) (stk : List String)
    (hP : ∀ p ∈ P, p ≠ "(") :
    popUntilParen (P ++ "(" :: stk) = some (P.map Token.sym, stk) := by
  induction P with
  | nil => simp [popUntilParen]
  | cons p P ih =>
    have hp := hP p (List.mem_cons_self p P)
    have ih2 := ih (fun q hq => hP q (List.mem_cons_of_mem p hq))
    simp only [List.cons_append, popUntilParen, if_neg hp, List.map_cons,
      List.append_eq, ih2]
    rfl

/-- Success analysis of `popUntilParen`: the stack decomposes into a
paren-free popped prefix, the matched parenthesis, and the rest. -/
theorem popUntilParen_some : ∀ stk o s2, popUntilParen stk = some (o, s2) →
    ∃ pre, stk = pre ++ "(" :: s2 ∧ o = pre.map Token.sym ∧ ∀ p ∈ pre, p ≠ "(" := by
  intro stk
  induction stk with
  | nil => intro o s2 h; exact absurd h (by simp [popUntilParen])
  | cons top st ih =>
    intro o s2 h
    by_cases htop : top = "("
    · subst htop
      have heq : popUntilParen ("(" :: st) = some ([], st) := by
        simp [popUntilParen]
      rw [heq] at h
      simp only [Option.some.injEq, Prod.mk.injEq] at h
      refine ⟨[], ?_, ?_, by simp⟩
      · rw [h.2]; rfl
      · rw [← h.1]; rfl
    · simp only [popUntilParen, if_neg htop] at h
      cases hrec : popUntilParen st with
      | none => rw [hrec] at h; simp at h
      | some r =>
        rw [hrec] at h
        simp only [Option.map_some', Option.some.injEq] at h
        obtain ⟨pre, h1, h2, h3⟩ := ih r.1 r.2 (by rw [hrec])
        cases h
        refine ⟨top :: pre, ?_, ?_, ?_⟩
        · rw [List.cons_append, ← h1]
        · rw [List.map_cons, ← h2]
        · intro p hp
          rcases List.mem_cons.1 hp with hp | hp
          · rw [hp]; exact htop
          · exact h3 p hp

/-- Draining a paren-free stack emits all its operators in order. -/
theorem drainStack_ok : ∀ stk : List String, "(" ∉ stk →
    drainStack stk = .ok (stk.map Token.sym) := by
  intro stk
  induction stk with
  | nil => intro _; rfl
  | cons top st ih =>
    intro h
    have htop : top ≠ "(" := fun hc => h (by rw [hc]; exact List.mem_cons_self _ _)
    have hrest : "(" ∉ st := fun hc => h (List.mem_cons_of_mem _ hc)
    simp [drainStack, htop, ih hrest, Except.map]

/-- Draining a stack still holding a left parenthesis fails with
`UnbalancedParenthesesError`. -/
theorem drainStack_err : ∀ stk : List String, "(" ∈ stk →
    drainStack stk =
      .error (.unbalancedParenthesesError "Mismatched or missing right parenthesis.") := by
  intro stk
  induction stk with
  | nil => intro h; exact absurd h (List.not_mem_nil _)
  | cons top st ih =>
    intro h
    by_cases htop : top = "("
    · simp [drainStack, htop]
    · have hrest : "(" ∈ st := by
        rcases List.mem_cons.1 h with hc | hc
        · exact absurd hc.symm htop
        · exact hc
      simp [drainStack, htop, ih hrest, Except.map]

/-! ## Invariants of the shunting-yard loop -/

/-- A true `shouldPop` implies the popped entry is not a parenthesis. -/
theorem shouldPop_ne_paren (tok p : String) (h : shouldPop tok p = true) :
    p ≠ "(" := by
  intro hc
  rw [hc] at h
  simp [shouldPop] at h

/-- Every token of a successful `rpnLoop` output is a number or one of
the four binary operator symbols, provided the incoming output queue and
operator stack satisfy the matching invariants. -/
theorem rpnLoop_ok_tokens : ∀ l out stk rpn, rpnLoop l out stk = .ok rpn →
    (∀ t ∈ out, isNumTok t = true ∨ t = Token.sym "+" ∨ t = Token.sym "-" ∨
      t = Token.sym "*" ∨ t = Token.sym "/") →
    (∀ s ∈ stk, s = "+" ∨ s = "-" ∨ s = "*" ∨ s = "/" ∨ s = "(") →
    ∀ t ∈ rpn, isNumTok t = true ∨ t = Token.sym "+" ∨ t = Token.sym "-" ∨
      t = Token.sym "*" ∨ t = Token.sym "/" := by
  intro l
  induction l with
  | nil =>
    intro out stk rpn h hout hstk
    by_cases hp : "(" ∈ stk
    · rw [show rpnLoop [] out stk = (drainStack stk).map (out ++ ·) from rfl,
        drainStack_err stk hp] at h
      exact absurd h (by simp [Except.map])
    · rw [show rpnLoop [] out stk = (drainStack stk).map (out ++ ·) from rfl,
        drainStack_ok stk hp] at h
      simp only [Except.map, Except.ok.injEq] at h
      subst h
      intro t ht
      rcases List.mem_append.1 ht with ht | ht
      · exact hout t ht
      · obtain ⟨s, hs, rfl⟩ := List.mem_map.1 ht
        have hsne : s ≠ "(" := fun hc => hp (hc ▸ hs)
        rcases hstk s hs with h | h | h | h | h
        · right; left; rw [h]
        · right; right; left; rw [h]
        · right; right; right; left; rw [h]
        · right; right; right; right; rw [h]
        · exact absurd h hsne
  | cons t rest ih =>
    intro out stk rpn h hout hstk
    match t with
    | .num v =>
      have h2 : rpnLoop rest (out ++ [Token.num v]) stk = .ok rpn := h
      refine ih (out ++ [.num v]) stk rpn h2 ?_ hstk
      intro u hu
      rcases List.mem_append.1 hu with hu | hu
      · exact hout u hu
      · left; rw [List.mem_singleton.1 hu]; rfl
    | .sym s =>
      rw [show rpnLoop (.sym s :: rest) out stk =
        (if inPrecedence s then
          rpnLoop rest (out ++ (popWhile s stk).1) (s :: (popWhile s stk).2)
        else if s = "(" then rpnLoop rest out ("(" :: stk)
        else if s = ")" then
          match popUntilParen stk with
          | none => .error
              (.unbalancedParenthesesError "Mismatched or missing left parenthesis.")
          | some r => rpnLoop rest (out ++ r.1) r.2
        else .error (.invalidExpressionError "Unknown token during RPN conversion."))
        from rfl] at h
      by_cases h1 : inPrecedence s = true
      · rw [if_pos h1] at h
        obtain ⟨pre, hpre1, hpre2, hpre3⟩ := popWhile_spec s stk
        refine ih _ _ rpn h ?_ ?_
        · intro u hu
          rcases List.mem_append.1 hu with hu | hu
          · exact hout u hu
          · rw [hpre2] at hu
            obtain ⟨p, hp, rfl⟩ := List.mem_map.1 hu
            have hpstk : p ∈ stk := by rw [hpre1]; exact List.mem_append_left _ hp
            have hnp := shouldPop_ne_paren s p (hpre3 p hp)
            rcases hstk p hpstk with hh | hh | hh | hh | hh
            · right; left; rw [hh]
            · right; right; left; rw [hh]
            · right; right; right; left; rw [hh]
            · right; right; right; right; rw [hh]
            · exact absurd hh hnp
        · intro q hq
          rcases List.mem_cons.1 hq with hq | hq
          · subst hq
            simp only [inPrecedence, Bool.or_eq_true, beq_iff_eq] at h1
            tauto
          · refine hstk q ?_
            rw [hpre1]
            exact List.mem_append_right _ hq
      · rw [if_neg h1] at h
        by_cases h2 : s = "("
        · rw [if_pos h2] at h
          refine ih out ("(" :: stk) rpn h hout ?_
          intro q hq
          rcases List.mem_cons.1 hq with hq | hq
          · tauto
          · exact hstk q hq
        · rw [if_neg h2] at h
          by_cases h3 : s = ")"
          · rw [if_pos h3] at h
            cases hrec : popUntilParen stk with
            | none => rw [hrec] at h; exact absurd h (by simp)
            | some r =>
              rw [hrec] at h
              obtain ⟨pre, hpre1, hpre2, hpre3⟩ := popUntilParen_some stk r.1 r.2 (by rw [hrec])
              refine ih _ _ rpn h ?_ ?_
              · intro u hu
                rcases List.mem_append.1 hu with hu | hu
                · exact hout u hu
                · rw [hpre2] at hu
                  obtain ⟨p, hp, rfl⟩ := List.mem_map.1 hu
                  have hpstk : p ∈ stk := by
                    rw [hpre1]; exact List.mem_append_left _ hp
                  rcases hstk p hpstk with hh | hh | hh | hh | hh
                  · right; left; rw [hh]
                  · right; right; left; rw [hh]
                  · right; right; right; left; rw [hh]
                  · right; right; right; right; rw [hh]
                  · exact absurd hh (hpre3 p hp)
              · intro q hq
                refine hstk q ?_
                rw [hpre1]
                exact List.mem_append_right _ (List.mem_cons_of_mem _ hq)
          · rw [if_neg h3] at h
            exact absurd h (by simp)

/-- Tokens of the form `Token.sym` contribute no numbers. -/
theorem countP_map_sym (l : List String) :
    (l.map Token.sym).countP isNumTok = 0 := by
  induction l with
  | nil => rfl
  | cons s l ih => simp [List.countP_cons, ih, isNumTok]

/-- A successful `rpnLoop` run emits every number of the output queue and
of the remaining input: numbers are never dropped. -/
theorem rpnLoop_countP : ∀ l out stk rpn, rpnLoop l out stk = .ok rpn →
    rpn.countP isNumTok = out.countP isNumTok + l.countP isNumTok := by
  intro l
  induction l with
  | nil =>
    intro out stk rpn h
    by_cases hp : "(" ∈ stk
    · rw [show rpnLoop [] out stk = (drainStack stk).map (out ++ ·) from rfl,
        drainStack_err stk hp] at h
      exact absurd h (by simp [Except.map])
    · rw [show rpnLoop [] out stk = (drainStack stk).map (out ++ ·) from rfl,
        drainStack_ok stk hp] at h
      simp only [Except.map, Except.ok.injEq] at h
      subst h
      simp [List.countP_append, countP_map_sym]
      intro a _
      rfl
  | cons t rest ih =>
    intro out stk rpn h
    match t with
    | .num v =>
      have h2 : rpnLoop rest (out ++ [Token.num v]) stk = .ok rpn := h
      have := ih (out ++ [.num v]) stk rpn h2
      simp only [List.countP_append] at this
      simp [this, List.countP_cons, isNumTok]
      omega
    | .sym s =>
      rw [show rpnLoop (.sym s :: rest) out stk =
        (if inPrecedence s then
          rpnLoop rest (out ++ (popWhile s stk).1) (s :: (popWhile s stk).2)
        else if s = "(" then rpnLoop rest out ("(" :: stk)
        else if s = ")" then
          match popUntilParen stk with
          | none => .error
              (.unbalancedParenthesesError "Mismatched or missing left parenthesis.")
          | some r => rpnLoop rest (out ++ r.1) r.2
        else .error (.invalidExpressionError "Unknown token during RPN conversion."))
        from rfl] at h
      have hsym : (Token.sym s :: rest).countP isNumTok = rest.countP isNumTok := by
        simp [List.countP_cons, isNumTok]
      rw [hsym]
      by_cases h1 : inPrecedence s = true
      · rw [if_pos h1] at h
        obtain ⟨pre, hpre1, hpre2, hpre3⟩ := popWhile_spec s stk
        have := ih _ _ rpn h
        rw [this, List.countP_append, hpre2, countP_map_sym]
        omega
      · rw [if_neg h1] at h
        by_cases h2 : s = "("
        · rw [if_pos h2] at h
          exact ih _ _ rpn h
        · rw [if_neg h2] at h
          by_cases h3 : s = ")"
          · rw [if_pos h3] at h
            cases hrec : popUntilParen stk with
            | none => rw [hrec] at h; exact absurd h (by simp)
            | some r =>
              rw [hrec] at h
              obtain ⟨pre, hpre1, hpre2, hpre3⟩ :=
                popUntilParen_some stk r.1 r.2 (by rw [hrec])
              have := ih _ _ rpn h
              rw [this, List.countP_append, hpre2, countP_map_sym]
              omega
          · rw [if_neg h3] at h
            exact absurd h (by simp)

/-- The unary-folding pass preserves the number of numeric tokens. -/
theorem foldUnary_countP : ∀ prev ts,
    (foldUnary prev ts).countP isNumTok = ts.countP isNumTok
  | _, [] => rfl
  | _, [t] => rfl
  | prev, t :: .num v :: rest2 => by
    by_cases h : (isSignSym t && prevAllowsUnary prev) = true
    · have ht : isNumTok t = false := by
        cases t with
        | num w => simp [isSignSym] at h
        | sym s => rfl
      simp only [foldUnary, h, if_true]
      rw [List.countP_cons, List.countP_cons, List.countP_cons,
        foldUnary_countP (some (.num v)) rest2, ht]
      simp [isNumTok]
    · rw [Bool.not_eq_true] at h
      simp only [foldUnary, h, Bool.false_eq_true, if_false]
      rw [List.countP_cons, List.countP_cons,
        foldUnary_countP (some t) (.num v :: rest2), List.countP_cons]
  | prev, t :: .sym s2 :: rest2 => by
    show (t :: foldUnary (some t) (.sym s2 :: rest2)).countP isNumTok =
      (t :: .sym s2 :: rest2).countP isNumTok
    rw [List.countP_cons, List.countP_cons,
      foldUnary_countP (some t) (.sym s2 :: rest2), List.countP_cons]

/-- On a token list where no `+`/`-` stands in unary position the folding
pass is the identity. -/
theorem foldUnary_id : ∀ prev ts, binaryPosOK prev ts = true →
    foldUnary prev ts = ts
  | _, [], _ => rfl
  | _, [t], _ => rfl
  | prev, t :: .num v :: rest2, h => by
    rw [show binaryPosOK prev (t :: .num v :: rest2) =
        (!(isSignSym t && prevAllowsUnary prev) &&
          binaryPosOK (some t) (.num v :: rest2)) from rfl,
      Bool.and_eq_true, Bool.not_eq_true'] at h
    have hfold : foldUnary prev (t :: .num v :: rest2) =
        t :: foldUnary (some t) (.num v :: rest2) := if_neg (by rw [h.1]; simp)
    rw [hfold]
    exact congrArg _ (foldUnary_id (some t) (.num v :: rest2) h.2)
  | prev, t :: .sym s2 :: rest2, h => by
    rw [show binaryPosOK prev (t :: .sym s2 :: rest2) =
        (!(isSignSym t && prevAllowsUnary prev) &&
          binaryPosOK (some t) (.sym s2 :: rest2)) from rfl,
      Bool.and_eq_true, Bool.not_eq_true'] at h
    show t :: foldUnary (some t) (.sym s2 :: rest2) = t :: .sym s2 :: rest2
    exact congrArg _ (foldUnary_id (some t) (.sym s2 :: rest2) h.2)

/-- Conversion of a token list containing a number yields a non-empty RPN
sequence when it succeeds. -/
theorem infix_to_rpn_num_nonempty (ts rpn : List Token)
    (h : infix_to_rpn ts = .ok rpn) (hnum : ts.any isNumTok = true) :
    rpn ≠ [] := by
  have hc := rpnLoop_countP (foldUnary none ts) [] [] rpn h
  rw [foldUnary_countP none ts] at hc
  have hpos : 0 < ts.countP isNumTok := by
    obtain ⟨x, hx, hpx⟩ := List.any_eq_true.1 hnum
    exact List.countP_pos_iff.2 ⟨x, hx, hpx⟩
  intro he
  rw [he] at hc
  simp only [List.countP_nil] at hc
  omega

/-! ## Step equations and operator-table facts -/

/-- Operator step of the shunting-yard loop. -/
theorem rpnLoop_op_step (s : String) (hs : inPrecedence s = true)
    (l : List Token) (out : List Token) (stk : List String) :
    rpnLoop (.sym s :: l) out stk =
      rpnLoop l (out ++ (popWhile s stk).1) (s :: (popWhile s stk).2) := by
  simp only [rpnLoop, hs, if_true]

/-- Left-parenthesis step of the shunting-yard loop. -/
theorem rpnLoop_lparen_step (l : List Token) (out : List Token) (stk : List String) :
    rpnLoop (.sym "(" :: l) out stk = rpnLoop l out ("(" :: stk) := rfl

/-- Right-parenthesis step of the shunting-yard loop. -/
theorem rpnLoop_rparen_step (l : List Token) (out : List Token) (stk : List String) :
    rpnLoop (.sym ")" :: l) out stk =
      match popUntilParen stk with
      | none =>
        .error (.unbalancedParenthesesError "Mismatched or missing left parenthesis.")
      | some r => rpnLoop l (out ++ r.1) r.2 := rfl

/-- Number step of the shunting-yard loop. -/
theorem rpnLoop_num_step (v : ℚ) (l : List Token) (out : List Token)
    (stk : List String) :
    rpnLoop (.num v :: l) out stk = rpnLoop l (out ++ [.num v]) stk := rfl

/-- End-of-input behaviour of the shunting-yard loop. -/
theorem rpnLoop_nil (out : List Token) (stk : List String) :
    rpnLoop [] out stk = (drainStack stk).map (fun d => out ++ d) := rfl

/-- A multiplicative operator pops any multiplicative stack top. -/
theorem shouldPop_md_pop (s p : String) (hs : s = "*" ∨ s = "/")
    (hp : p = "*" ∨ p = "/") : shouldPop s p = true := by
  rcases hs with rfl | rfl <;> rcases hp with rfl | rfl <;> decide

/-- A multiplicative operator never pops a parenthesis or an additive
operator. -/
theorem shouldPop_md_stop (s top : String) (hs : s = "*" ∨ s = "/")
    (htop : top = "(" ∨ top = "+" ∨ top = "-") : shouldPop s top = false := by
  rcases hs with rfl | rfl <;> rcases htop with rfl | rfl | rfl <;> decide

/-- An additive operator pops any of the four binary operators. -/
theorem shouldPop_as_pop (s p : String) (hs : s = "+" ∨ s = "-")
    (hp : p = "+" ∨ p = "-" ∨ p = "*" ∨ p = "/") : shouldPop s p = true := by
  rcases hs with rfl | rfl <;> rcases hp with rfl | rfl | rfl | rfl <;> decide

/-- No operator pops a left parenthesis. -/
theorem shouldPop_paren_stop (s : String) : shouldPop s "(" = false := by
  simp [shouldPop]

/-- The four operator symbols are in the precedence table. -/
theorem inPrecedence_four (s : String)
    (hs : s = "+" ∨ s = "-" ∨ s = "*" ∨ s = "/") : inPrecedence s = true := by
  rcases hs with rfl | rfl | rfl | rfl <;> decide

/-- The symbol of every `Op` is in the operator table of the evaluator. -/
theorem inOperators_symStr (op : Op) : inOperators op.symStr = true := by
  cases op <;> decide

/-- Parsers reject the empty token list. -/
theorem specParseF_nil (fuel : Nat) : specParseF fuel [] = none := by
  cases fuel <;> rfl

theorem specParseT_nil (fuel : Nat) : specParseT fuel [] = none := by
  cases fuel with
  | zero => rfl
  | succ f => simp [specParseT, specParseF_nil]

theorem specParseE_nil (fuel : Nat) : specParseE fuel [] = none := by
  cases fuel with
  | zero => rfl
  | succ f => simp [specParseE, specParseT_nil]

/-- The RPN serialization of an expression is never empty. -/
theorem rpnOf_ne_nil (e : Expr) : rpnOf e ≠ [] := by
  cases e <;> simp [rpnOf]

/-! ## The stack machine computes the value of a compiled expression -/

/-- Running the RPN evaluation loop over the serialization of an
expression pushes exactly its value. -/
theorem evalRpnLoop_rpnOf : ∀ e : Expr, ∀ v : ℚ, e.evalOpt = some v →
    ∀ rest st, evalRpnLoop (rpnOf e ++ rest) st = evalRpnLoop rest (v :: st) := by
  intro e
  induction e with
  | lit w =>
    intro v h rest st
    unfold Expr.evalOpt at h
    injection h with h
    rw [← h]
    rfl
  | bin op a b iha ihb =>
    intro v h rest st
    unfold Expr.evalOpt at h
    cases ha : a.evalOpt with
    | none => rw [ha] at h; simp at h
    | some x =>
      cases hb : b.evalOpt with
      | none => rw [ha, hb] at h; simp at h
      | some y =>
        rw [ha, hb] at h
        rw [show rpnOf (.bin op a b) = rpnOf a ++ rpnOf b ++ [Token.sym op.symStr]
          from rfl, List.append_assoc, List.append_assoc]
        rw [iha x ha (rpnOf b ++ ([Token.sym op.symStr] ++ rest)) st]
        rw [ihb y hb ([Token.sym op.symStr] ++ rest) (x :: st)]
        cases op with
        | add =>
          simp only [Op.symStr]
          simp only [Option.some.injEq] at h
          rw [show ([Token.sym "+"] ++ rest : List Token) = .sym "+" :: rest from rfl]
          rw [evalRpnLoop_binop "+" rest x y st (by decide) (by simp)]
          rw [show applyOp "+" x y = x + y by simp [applyOp], h]
        | sub =>
          simp only [Op.symStr]
          simp only [Option.some.injEq] at h
          rw [show ([Token.sym "-"] ++ rest : List Token) = .sym "-" :: rest from rfl]
          rw [evalRpnLoop_binop "-" rest x y st (by decide) (by simp)]
          rw [show applyOp "-" x y = x - y by simp [applyOp], h]
        | mul =>
          simp only [Op.symStr]
          simp only [Option.some.injEq] at h
          rw [show ([Token.sym "*"] ++ rest : List Token) = .sym "*" :: rest from rfl]
          rw [evalRpnLoop_binop "*" rest x y st (by decide) (by simp)]
          rw [show applyOp "*" x y = x * y by simp [applyOp], h]
        | div =>
          simp only [Op.symStr]
          have h2 : (if y = 0 then none else some (x / y)) = some v := h
          by_cases hy : y = 0
          · rw [if_pos hy] at h2; simp at h2
          · rw [if_neg hy] at h2
            simp only [Option.some.injEq] at h2
            have h := h2
            rw [show ([Token.sym "/"] ++ rest : List Token) = .sym "/" :: rest from rfl]
            rw [evalRpnLoop_binop "/" rest x y st (by decide) (by simp [hy])]
            rw [show applyOp "/" x y = x / y by simp [applyOp], h]

/-- `evaluate_rpn` computes the value of a compiled expression. -/
theorem evaluate_rpn_rpnOf (e : Expr) (v : ℚ) (h : e.evalOpt = some v) :
    evaluate_rpn (rpnOf e) = .ok v := by
  have hrun := evalRpnLoop_rpnOf e v h [] []
  rw [List.append_nil] at hrun
  unfold evaluate_rpn
  rw [hrun]
  rfl

/-! ## Shunting-yard correctness

The invariant: after the loop has consumed the tokens of a parsed
fragment, the output queue holds the fragment's RPN serialization except
for a tail of operators still pending on the stack (`P`, top first),
and the stack below the pending operators is untouched. -/

theorem shunt_invariant : ∀ fuel : Nat,
    (∀ ts e rest, specParseF fuel ts = some (e, rest) →
      ∀ out stk, rpnLoop ts out stk = rpnLoop rest (out ++ rpnOf e) stk) ∧
    (∀ acc ts e rest, specParseTLoop fuel acc ts = some (e, rest) →
      ∀ out stk P0 outPart0,
        (stk = [] ∨ ∃ s r, stk = s :: r ∧ (s = "(" ∨ s = "+" ∨ s = "-")) →
        (∀ p ∈ P0, p = "*" ∨ p = "/") →
        rpnOf acc = outPart0 ++ P0.map Token.sym →
        ∃ P outPart, (∀ p ∈ P, p = "*" ∨ p = "/") ∧
          rpnOf e = outPart ++ P.map Token.sym ∧
          rpnLoop ts (out ++ outPart0) (P0 ++ stk) =
            rpnLoop rest (out ++ outPart) (P ++ stk)) ∧
    (∀ ts e rest, specParseT fuel ts = some (e, rest) →
      ∀ out stk,
        (stk = [] ∨ ∃ s r, stk = s :: r ∧ (s = "(" ∨ s = "+" ∨ s = "-")) →
        ∃ P outPart, (∀ p ∈ P, p = "*" ∨ p = "/") ∧
          rpnOf e = outPart ++ P.map Token.sym ∧
          rpnLoop ts out stk = rpnLoop rest (out ++ outPart) (P ++ stk)) ∧
    (∀ acc ts e rest, specParseELoop fuel acc ts = some (e, rest) →
      ∀ out stk P0 outPart0,
        (stk = [] ∨ ∃ r, stk = "(" :: r) →
        (∀ p ∈ P0, p = "+" ∨ p = "-" ∨ p = "*" ∨ p = "/") →
        rpnOf acc = outPart0 ++ P0.map Token.sym →
        ∃ P outPart, (∀ p ∈ P, p = "+" ∨ p = "-" ∨ p = "*" ∨ p = "/") ∧
          rpnOf e = outPart ++ P.map Token.sym ∧
          rpnLoop ts (out ++ outPart0) (P0 ++ stk) =
            rpnLoop rest (out ++ outPart) (P ++ stk)) ∧
    (∀ ts e rest, specParseE fuel ts = some (e, rest) →
      ∀ out stk, (stk = [] ∨ ∃ r, stk = "(" :: r) →
        ∃ P outPart, (∀ p ∈ P, p = "+" ∨ p = "-" ∨ p = "*" ∨ p = "/") ∧
          rpnOf e = outPart ++ P.map Token.sym ∧
          rpnLoop ts out stk = rpnLoop rest (out ++ outPart) (P ++ stk)) := by
  intro fuel
  induction fuel with
  | zero =>
    refine ⟨?_, ?_, ?_, ?_, ?_⟩
    · intro ts e rest h
      exact absurd h (by rw [show specParseF 0 ts = none from rfl]; simp)
    · intro acc ts e rest h
      exact absurd h (by rw [show specParseTLoop 0 acc ts = none from rfl]; simp)
    · intro ts e rest h
      exact absurd h (by rw [show specParseT 0 ts = none from rfl]; simp)
    · intro acc ts e rest h
      exact absurd h (by rw [show specParseELoop 0 acc ts = none from rfl]; simp)
    · intro ts e rest h
      exact absurd h (by rw [show specParseE 0 ts = none from rfl]; simp)
  | succ f ih =>
    obtain ⟨ihF, ihTL, ihT, ihEL, ihE⟩ := ih
    have hF : ∀ ts e rest, specParseF (f + 1) ts = some (e, rest) →
        ∀ out stk, rpnLoop ts out stk = rpnLoop rest (out ++ rpnOf e) stk := by
      intro ts e rest h out stk
      match ts with
      | [] => rw [specParseF_nil] at h; exact absurd h (by simp)
      | .num v :: ts' =>
        simp only [specParseF, Option.some.injEq, Prod.mk.injEq] at h
        obtain ⟨rfl, rfl⟩ := h
        rw [rpnLoop_num_step]
        rfl
      | .sym s :: ts' =>
        by_cases hs : s = "("
        · subst hs
          have h2 : (match specParseE f ts' with
              | some (e1, Token.sym s2 :: rest2) =>
                if s2 = ")" then some (e1, rest2) else none
              | _ => none) = some (e, rest) := h
          cases hE : specParseE f ts' with
          | none => rw [hE] at h2; exact absurd h2 (by simp)
          | some pr =>
            obtain ⟨e1, r1⟩ := pr
            rw [hE] at h2
            match r1, h2 with
            | Token.sym s2 :: rest2, h2 =>
              have h3 : (if s2 = ")" then some (e1, rest2) else none) =
                  some (e, rest) := h2
              by_cases h9 : s2 = ")"
              · subst h9
                rw [if_pos rfl] at h3
                simp only [Option.some.injEq, Prod.mk.injEq] at h3
                obtain ⟨he1, hrest⟩ := h3
                subst he1
                subst hrest
                obtain ⟨P, outPart, hP, hsplit, heq⟩ :=
                  ihE ts' e1 (Token.sym ")" :: rest2) hE out ("(" :: stk)
                    (Or.inr ⟨stk, rfl⟩)
                have hnp : ∀ p ∈ P, p ≠ "(" := by
                  intro p hp
                  rcases hP p hp with rfl | rfl | rfl | rfl <;> decide
                calc rpnLoop (Token.sym "(" :: ts') out stk
                    = rpnLoop ts' out ("(" :: stk) := rpnLoop_lparen_step ts' out stk
                  _ = rpnLoop (Token.sym ")" :: rest2) (out ++ outPart)
                        (P ++ "(" :: stk) := heq
                  _ = rpnLoop rest2 ((out ++ outPart) ++ P.map Token.sym) stk := by
                        rw [rpnLoop_rparen_step, popUntilParen_exact P stk hnp]
                  _ = rpnLoop rest2 (out ++ rpnOf e1) stk := by
                        rw [hsplit, List.append_assoc]
              · rw [if_neg h9] at h3; exact absurd h3 (by simp)
        · have h2 : (if s = "(" then
              (match specParseE f ts' with
              | some (e1, Token.sym s2 :: rest2) =>
                if s2 = ")" then some (e1, rest2) else none
              | _ => none)
              else none) = some (e, rest) := h
          rw [if_neg hs] at h2
          exact absurd h2 (by simp)
    have hTL : ∀ acc ts e rest, specParseTLoop (f + 1) acc ts = some (e, rest) →
        ∀ out stk P0 outPart0,
          (stk = [] ∨ ∃ s r, stk = s :: r ∧ (s = "(" ∨ s = "+" ∨ s = "-")) →
          (∀ p ∈ P0, p = "*" ∨ p = "/") →
          rpnOf acc = outPart0 ++ P0.map Token.sym →
          ∃ P outPart, (∀ p ∈ P, p = "*" ∨ p = "/") ∧
            rpnOf e = outPart ++ P.map Token.sym ∧
            rpnLoop ts (out ++ outPart0) (P0 ++ stk) =
              rpnLoop rest (out ++ outPart) (P ++ stk) := by
      intro acc ts e rest h out stk P0 outPart0 hstk hP0 hacc
      match ts with
      | [] =>
        simp only [specParseTLoop, Option.some.injEq, Prod.mk.injEq] at h
        obtain ⟨rfl, rfl⟩ := h
        exact ⟨P0, outPart0, hP0, hacc, rfl⟩
      | .num w :: ts' =>
        simp only [specParseTLoop, Option.some.injEq, Prod.mk.injEq] at h
        obtain ⟨rfl, rfl⟩ := h
        exact ⟨P0, outPart0, hP0, hacc, rfl⟩
      | .sym s :: ts' =>
        have h2 : (if s = "*" ∨ s = "/" then
            (match specParseF f ts' with
            | some (f1, rest2) =>
              specParseTLoop f (.bin (if s = "*" then .mul else .div) acc f1) rest2
            | none => none)
            else some (acc, Token.sym s :: ts')) = some (e, rest) := h
        by_cases hs : s = "*" ∨ s = "/"
        · rw [if_pos hs] at h2
          cases hFp : specParseF f ts' with
          | none => rw [hFp] at h2; exact absurd h2 (by simp)
          | some pr =>
            obtain ⟨f1, r2⟩ := pr
            rw [hFp] at h2
            have hstop : ∀ s1 r1, stk = s1 :: r1 → shouldPop s s1 = false := by
              intro s1 r1 hr
              rcases hstk with h1 | ⟨s3, r3, h3, h4⟩
              · rw [h1] at hr; exact absurd hr (by simp)
              · rw [h3] at hr
                injection hr with hh1 hh2
                rw [← hh1]
                exact shouldPop_md_stop s s3 hs h4
            have hpop := popWhile_exact s P0 stk
              (fun p hp => shouldPop_md_pop s p hs (hP0 p hp)) hstop
            have hop : (if s = "*" then Op.mul else Op.div).symStr = s := by
              rcases hs with rfl | rfl <;> rfl
            obtain ⟨P, outPart, hP, hsplit, heq⟩ :=
              ihTL (.bin (if s = "*" then .mul else .div) acc f1) r2 e rest h2
                out stk [s] (rpnOf acc ++ rpnOf f1) hstk
                (by intro p hp; rw [List.mem_singleton.1 hp]; exact hs)
                (by rw [show rpnOf (Expr.bin (if s = "*" then Op.mul else Op.div) acc f1) =
                      rpnOf acc ++ rpnOf f1 ++
                        [Token.sym (if s = "*" then Op.mul else Op.div).symStr]
                      from rfl, hop]
                    simp)
            refine ⟨P, outPart, hP, hsplit, ?_⟩
            calc rpnLoop (Token.sym s :: ts') (out ++ outPart0) (P0 ++ stk)
                = rpnLoop ts' ((out ++ outPart0) ++ P0.map Token.sym) (s :: stk) := by
                  rw [rpnLoop_op_step s (inPrecedence_four s (by tauto)), hpop]
              _ = rpnLoop ts' (out ++ rpnOf acc) (s :: stk) := by
                  rw [List.append_assoc, ← hacc]
              _ = rpnLoop r2 ((out ++ rpnOf acc) ++ rpnOf f1) (s :: stk) :=
                  ihF ts' f1 r2 hFp (out ++ rpnOf acc) (s :: stk)
              _ = rpnLoop rest (out ++ outPart) (P ++ stk) := by
                  rw [List.append_assoc]
                  exact heq
        · rw [if_neg hs] at h2
          simp only [Option.some.injEq, Prod.mk.injEq] at h2
          obtain ⟨rfl, rfl⟩ := h2
          exact ⟨P0, outPart0, hP0, hacc, rfl⟩
    have hT : ∀ ts e rest, specParseT (f + 1) ts = some (e, rest) →
        ∀ out stk,
          (stk = [] ∨ ∃ s r, stk = s :: r ∧ (s = "(" ∨ s = "+" ∨ s = "-")) →
          ∃ P outPart, (∀ p ∈ P, p = "*" ∨ p = "/") ∧
            rpnOf e = outPart ++ P.map Token.sym ∧
            rpnLoop ts out stk = rpnLoop rest (out ++ outPart) (P ++ stk) := by
      intro ts e rest h out stk hstk
      have h2 : (match specParseF f ts with
          | some (f1, rest1) => specParseTLoop f f1 rest1
          | none => none) = some (e, rest) := h
      cases hFp : specParseF f ts with
      | none => rw [hFp] at h2; exact absurd h2 (by simp)
      | some pr =>
        obtain ⟨f1, r1⟩ := pr
        rw [hFp] at h2
        obtain ⟨P, outPart, hP, hsplit, heq⟩ :=
          ihTL f1 r1 e rest h2 out stk [] (rpnOf f1) hstk (by simp) (by simp)
        exact ⟨P, outPart, hP, hsplit,
          (ihF ts f1 r1 hFp out stk).trans heq⟩
    have hEL : ∀ acc ts e rest, specParseELoop (f + 1) acc ts = some (e, rest) →
        ∀ out stk P0 outPart0,
          (stk = [] ∨ ∃ r, stk = "(" :: r) →
          (∀ p ∈ P0, p = "+" ∨ p = "-" ∨ p = "*" ∨ p = "/") →
          rpnOf acc = outPart0 ++ P0.map Token.sym →
          ∃ P outPart, (∀ p ∈ P, p = "+" ∨ p = "-" ∨ p = "*" ∨ p = "/") ∧
            rpnOf e = outPart ++ P.map Token.sym ∧
            rpnLoop ts (out ++ outPart0) (P0 ++ stk) =
              rpnLoop rest (out ++ outPart) (P ++ stk) := by
      intro acc ts e rest h out stk P0 outPart0 hstk hP0 hacc
      match ts with
      | [] =>
        simp only [specParseELoop, Option.some.injEq, Prod.mk.injEq] at h
        obtain ⟨rfl, rfl⟩ := h
        exact ⟨P0, outPart0, hP0, hacc, rfl⟩
      | .num w :: ts' =>
        simp only [specParseELoop, Option.some.injEq, Prod.mk.injEq] at h
        obtain ⟨rfl, rfl⟩ := h
        exact ⟨P0, outPart0, hP0, hacc, rfl⟩
      | .sym s :: ts' =>
        have h2 : (if s = "+" ∨ s = "-" then
            (match specParseT f ts' with
            | some (t1, rest2) =>
              specParseELoop f (.bin (if s = "+" then .add else .sub) acc t1) rest2
            | none => none)
            else some (acc, Token.sym s :: ts')) = some (e, rest) := h
        by_cases hs : s = "+" ∨ s = "-"
        · rw [if_pos hs] at h2
          cases hTp : specParseT f ts' with
          | none => rw [hTp] at h2; exact absurd h2 (by simp)
          | some pr =>
            obtain ⟨t1, r2⟩ := pr
            rw [hTp] at h2
            have hstop : ∀ s1 r1, stk = s1 :: r1 → shouldPop s s1 = false := by
              intro s1 r1 hr
              rcases hstk with h1 | ⟨r3, h3⟩
              · rw [h1] at hr; exact absurd hr (by simp)
              · rw [h3] at hr
                injection hr with hh1 hh2
                rw [← hh1]
                exact shouldPop_paren_stop s
            have hpop := popWhile_exact s P0 stk
              (fun p hp => shouldPop_as_pop s p hs (hP0 p hp)) hstop
            have hop : (if s = "+" then Op.add else Op.sub).symStr = s := by
              rcases hs with rfl | rfl <;> rfl
            obtain ⟨PT, outPartT, hPT, hsplitT, heqT⟩ :=
              ihT ts' t1 r2 hTp (out ++ rpnOf acc) (s :: stk)
                (Or.inr ⟨s, stk, rfl, by tauto⟩)
            obtain ⟨P, outPart, hP, hsplit, heq⟩ :=
              ihEL (.bin (if s = "+" then .add else .sub) acc t1) r2 e rest h2
                out stk (PT ++ [s]) (rpnOf acc ++ outPartT) hstk
                (by intro p hp
                    rcases List.mem_append.1 hp with hp | hp
                    · rcases hPT p hp with rfl | rfl <;> tauto
                    · rw [List.mem_singleton.1 hp]; tauto)
                (by rw [show rpnOf (Expr.bin (if s = "+" then Op.add else Op.sub) acc t1) =
                      rpnOf acc ++ rpnOf t1 ++
                        [Token.sym (if s = "+" then Op.add else Op.sub).symStr]
                      from rfl, hop, hsplitT]
                    simp)
            refine ⟨P, outPart, hP, hsplit, ?_⟩
            calc rpnLoop (Token.sym s :: ts') (out ++ outPart0) (P0 ++ stk)
                = rpnLoop ts' ((out ++ outPart0) ++ P0.map Token.sym) (s :: stk) := by
                  rw [rpnLoop_op_step s (inPrecedence_four s (by tauto)), hpop]
              _ = rpnLoop ts' (out ++ rpnOf acc) (s :: stk) := by
                  rw [List.append_assoc, ← hacc]
              _ = rpnLoop r2 ((out ++ rpnOf acc) ++ outPartT) (PT ++ (s :: stk)) :=
                  heqT
              _ = rpnLoop rest (out ++ outPart) (P ++ stk) := by
                  rw [List.append_assoc, ← List.singleton_append,
                    ← List.append_assoc PT [s] stk]
                  exact heq
        · rw [if_neg hs] at h2
          simp only [Option.some.injEq, Prod.mk.injEq] at h2
          obtain ⟨rfl, rfl⟩ := h2
          exact ⟨P0, outPart0, hP0, hacc, rfl⟩
    have hE : ∀ ts e rest, specParseE (f + 1) ts = some (e, rest) →
        ∀ out stk, (stk = [] ∨ ∃ r, stk = "(" :: r) →
          ∃ P outPart, (∀ p ∈ P, p = "+" ∨ p = "-" ∨ p = "*" ∨ p = "/") ∧
            rpnOf e = outPart ++ P.map Token.sym ∧
            rpnLoop ts out stk = rpnLoop rest (out ++ outPart) (P ++ stk) := by
      intro ts e rest h out stk hstk
      have h2 : (match specParseT f ts with
          | some (t1, rest1) => specParseELoop f t1 rest1
          | none => none) = some (e, rest) := h
      cases hTp : specParseT f ts with
      | none => rw [hTp] at h2; exact absurd h2 (by simp)
      | some pr =>
        obtain ⟨t1, r1⟩ := pr
        rw [hTp] at h2
        have hstkT : stk = [] ∨ ∃ s r, stk = s :: r ∧ (s = "(" ∨ s = "+" ∨ s = "-") := by
          rcases hstk with h1 | ⟨r, hr⟩
          · exact Or.inl h1
          · exact Or.inr ⟨"(", r, hr, Or.inl rfl⟩
        obtain ⟨PT, outPartT, hPT, hsplitT, heqT⟩ := ihT ts t1 r1 hTp out stk hstkT
        obtain ⟨P, outPart, hP, hsplit, heq⟩ :=
          ihEL t1 r1 e rest h2 out stk PT outPartT hstk
            (fun p hp => by rcases hPT p hp with rfl | rfl <;> tauto) hsplitT
        exact ⟨P, outPart, hP, hsplit, heqT.trans heq⟩
    exact ⟨hF, hTL, hT, hEL, hE⟩

/-! ## Grammar token lists have no unary positions -/

/-- One step of `binaryPosOK`. -/
theorem binaryPosOK_cons (prev : Option Token) (t : Token) (rest : List Token) :
    binaryPosOK prev (t :: rest) =
      (!(isSignSym t && prevAllowsUnary prev) && binaryPosOK (some t) rest) := rfl

/-- A non-sign token never triggers the unary condition. -/
theorem binaryPosOK_cons_nonsign (prev : Option Token) (t : Token)
    (rest : List Token) (h : isSignSym t = false) :
    binaryPosOK prev (t :: rest) = binaryPosOK (some t) rest := by
  rw [binaryPosOK_cons, h]
  simp

/-- A sign token after a non-triggering previous token is harmless. -/
theorem binaryPosOK_cons_safe (prev : Option Token) (t : Token)
    (rest : List Token) (h : prevAllowsUnary prev = false) :
    binaryPosOK prev (t :: rest) = binaryPosOK (some t) rest := by
  rw [binaryPosOK_cons, h]
  simp

/-- Every fragment produced by the grammar parser ends in a number or a
right parenthesis, and inside the fragment no `+`/`-` stands in unary
position; `last` is the fragment's final token. -/
theorem binpos_invariant : ∀ fuel : Nat,
    (∀ ts e rest, specParseF fuel ts = some (e, rest) →
      ∃ last, prevAllowsUnary (some last) = false ∧
        ∀ prev, binaryPosOK prev ts = binaryPosOK (some last) rest) ∧
    (∀ acc ts e rest, specParseTLoop fuel acc ts = some (e, rest) →
      ∀ last0, prevAllowsUnary (some last0) = false →
        ∃ last, prevAllowsUnary (some last) = false ∧
          binaryPosOK (some last0) ts = binaryPosOK (some last) rest) ∧
    (∀ ts e rest, specParseT fuel ts = some (e, rest) →
      ∃ last, prevAllowsUnary (some last) = false ∧
        ∀ prev, binaryPosOK prev ts = binaryPosOK (some last) rest) ∧
    (∀ acc ts e rest, specParseELoop fuel acc ts = some (e, rest) →
      ∀ last0, prevAllowsUnary (some last0) = false →
        ∃ last, prevAllowsUnary (some last) = false ∧
          binaryPosOK (some last0) ts = binaryPosOK (some last) rest) ∧
    (∀ ts e rest, specParseE fuel ts = some (e, rest) →
      ∃ last, prevAllowsUnary (some last) = false ∧
        ∀ prev, binaryPosOK prev ts = binaryPosOK (some last) rest) := by
  intro fuel
  induction fuel with
  | zero =>
    refine ⟨?_, ?_, ?_, ?_, ?_⟩
    · intro ts e rest h
      exact absurd h (by rw [show specParseF 0 ts = none from rfl]; simp)
    · intro acc ts e rest h
      exact absurd h (by rw [show specParseTLoop 0 acc ts = none from rfl]; simp)
    · intro ts e rest h
      exact absurd h (by rw [show specParseT 0 ts = none from rfl]; simp)
    · intro acc ts e rest h
      exact absurd h (by rw [show specParseELoop 0 acc ts = none from rfl]; simp)
    · intro ts e rest h
      exact absurd h (by rw [show specParseE 0 ts = none from rfl]; simp)
  | succ f ih =>
    obtain ⟨ihF, ihTL, ihT, ihEL, ihE⟩ := ih
    have hF : ∀ ts e rest, specParseF (f + 1) ts = some (e, rest) →
        ∃ last, prevAllowsUnary (some last) = false ∧
          ∀ prev, binaryPosOK prev ts = binaryPosOK (some last) rest := by
      intro ts e rest h
      match ts with
      | [] => rw [specParseF_nil] at h; exact absurd h (by simp)
      | .num v :: ts' =>
        simp only [specParseF, Option.some.injEq, Prod.mk.injEq] at h
        obtain ⟨rfl, rfl⟩ := h
        exact ⟨.num v, rfl,
          fun prev => binaryPosOK_cons_nonsign prev (.num v) ts' rfl⟩
      | .sym s :: ts' =>
        by_cases hs : s = "("
        · subst hs
          have h2 : (match specParseE f ts' with
              | some (e1, Token.sym s2 :: rest2) =>
                if s2 = ")" then some (e1, rest2) else none
              | _ => none) = some (e, rest) := h
          cases hE : specParseE f ts' with
          | none => rw [hE] at h2; exact absurd h2 (by simp)
          | some pr =>
            obtain ⟨e1, r1⟩ := pr
            rw [hE] at h2
            match r1, h2, hE with
            | Token.sym s2 :: rest2, h2, hE =>
              have h3 : (if s2 = ")" then some (e1, rest2) else none) =
                  some (e, rest) := h2
              by_cases h9 : s2 = ")"
              · subst h9
                rw [if_pos rfl] at h3
                simp only [Option.some.injEq, Prod.mk.injEq] at h3
                obtain ⟨he1, hrest⟩ := h3
                subst he1
                subst hrest
                obtain ⟨lastE, hlE, heqE⟩ := ihE ts' e1 (Token.sym ")" :: rest2) hE
                refine ⟨.sym ")", by decide, fun prev => ?_⟩
                rw [binaryPosOK_cons_nonsign prev (.sym "(") ts' (by decide),
                  heqE (some (.sym "(")),
                  binaryPosOK_cons_nonsign (some lastE) (.sym ")") rest2 (by decide)]
              · rw [if_neg h9] at h3; exact absurd h3 (by simp)
        · have h2 : (if s = "(" then
              (match specParseE f ts' with
              | some (e1, Token.sym s2 :: rest2) =>
                if s2 = ")" then some (e1, rest2) else none
              | _ => none)
              else none) = some (e, rest) := h
          rw [if_neg hs] at h2
          exact absurd h2 (by simp)
    have hTL : ∀ acc ts e rest, specParseTLoop (f + 1) acc ts = some (e, rest) →
        ∀ last0, prevAllowsUnary (some last0) = false →
          ∃ last, prevAllowsUnary (some last) = false ∧
            binaryPosOK (some last0) ts = binaryPosOK (some last) rest := by
      intro acc ts e rest h last0 hl0
      match ts with
      | [] =>
        simp only [specParseTLoop, Option.some.injEq, Prod.mk.injEq] at h
        obtain ⟨rfl, rfl⟩ := h
        exact ⟨last0, hl0, rfl⟩
      | .num w :: ts' =>
        simp only [specParseTLoop, Option.some.injEq, Prod.mk.injEq] at h
        obtain ⟨rfl, rfl⟩ := h
        exact ⟨last0, hl0, rfl⟩
      | .sym s :: ts' =>
        have h2 : (if s = "*" ∨ s = "/" then
            (match specParseF f ts' with
            | some (f1, rest2) =>
              specParseTLoop f (.bin (if s = "*" then .mul else .div) acc f1) rest2
            | none => none)
            else some (acc, Token.sym s :: ts')) = some (e, rest) := h
        by_cases hs : s = "*" ∨ s = "/"
        · rw [if_pos hs] at h2
          cases hFp : specParseF f ts' with
          | none => rw [hFp] at h2; exact absurd h2 (by simp)
          | some pr =>
            obtain ⟨f1, r2⟩ := pr
            rw [hFp] at h2
            obtain ⟨lastF, hlF, heqF⟩ := ihF ts' f1 r2 hFp
            obtain ⟨last, hl, heq⟩ :=
              ihTL (.bin (if s = "*" then .mul else .div) acc f1) r2 e rest h2
                lastF hlF
            refine ⟨last, hl, ?_⟩
            rw [binaryPosOK_cons_nonsign (some last0) (.sym s) ts'
              (by rcases hs with rfl | rfl <;> rfl), heqF (some (.sym s)), heq]
        · rw [if_neg hs] at h2
          simp only [Option.some.injEq, Prod.mk.injEq] at h2
          obtain ⟨rfl, rfl⟩ := h2
          exact ⟨last0, hl0, rfl⟩
    have hT : ∀ ts e rest, specParseT (f + 1) ts = some (e, rest) →
        ∃ last, prevAllowsUnary (some last) = false ∧
          ∀ prev, binaryPosOK prev ts = binaryPosOK (some last) rest := by
      intro ts e rest h
      have h2 : (match specParseF f ts with
          | some (f1, rest1) => specParseTLoop f f1 rest1
          | none => none) = some (e, rest) := h
      cases hFp : specParseF f ts with
      | none => rw [hFp] at h2; exact absurd h2 (by simp)
      | some pr =>
        obtain ⟨f1, r1⟩ := pr
        rw [hFp] at h2
        obtain ⟨lastF, hlF, heqF⟩ := ihF ts f1 r1 hFp
        obtain ⟨last, hl, heq⟩ := ihTL f1 r1 e rest h2 lastF hlF
        exact ⟨last, hl, fun prev => (heqF prev).trans heq⟩
    have hEL : ∀ acc ts e rest, specParseELoop (f + 1) acc ts = some (e, rest) →
        ∀ last0, prevAllowsUnary (some last0) = false →
          ∃ last, prevAllowsUnary (some last) = false ∧
            binaryPosOK (some last0) ts = binaryPosOK (some last) rest := by
      intro acc ts e rest h last0 hl0
      match ts with
      | [] =>
        simp only [specParseELoop, Option.some.injEq, Prod.mk.injEq] at h
        obtain ⟨rfl, rfl⟩ := h
        exact ⟨last0, hl0, rfl⟩
      | .num w :: ts' =>
        simp only [specParseELoop, Option.some.injEq, Prod.mk.injEq] at h
        obtain ⟨rfl, rfl⟩ := h
        exact ⟨last0, hl0, rfl⟩
      | .sym s :: ts' =>
        have h2 : (if s = "+" ∨ s = "-" then
            (match specParseT f ts' with
            | some (t1, rest2) =>
              specParseELoop f (.bin (if s = "+" then .add else .sub) acc t1) rest2
            | none => none)
            else some (acc, Token.sym s :: ts')) = some (e, rest) := h
        by_cases hs : s = "+" ∨ s = "-"
        · rw [if_pos hs] at h2
          cases hTp : specParseT f ts' with
          | none => rw [hTp] at h2; exact absurd h2 (by simp)
          | some pr =>
            obtain ⟨t1, r2⟩ := pr
            rw [hTp] at h2
            obtain ⟨lastT, hlT, heqT⟩ := ihT ts' t1 r2 hTp
            obtain ⟨last, hl, heq⟩ :=
              ihEL (.bin (if s = "+" then .add else .sub) acc t1) r2 e rest h2
                lastT hlT
            refine ⟨last, hl, ?_⟩
            rw [binaryPosOK_cons_safe (some last0) (.sym s) ts' hl0,
              heqT (some (.sym s)), heq]
        · rw [if_neg hs] at h2
          simp only [Option.some.injEq, Prod.mk.injEq] at h2
          obtain ⟨rfl, rfl⟩ := h2
          exact ⟨last0, hl0, rfl⟩
    have hE : ∀ ts e rest, specParseE (f + 1) ts = some (e, rest) →
        ∃ last, prevAllowsUnary (some last) = false ∧
          ∀ prev, binaryPosOK prev ts = binaryPosOK (some last) rest := by
      intro ts e rest h
      have h2 : (match specParseT f ts with
          | some (t1, rest1) => specParseELoop f t1 rest1
          | none => none) = some (e, rest) := h
      cases hTp : specParseT f ts with
      | none => rw [hTp] at h2; exact absurd h2 (by simp)
      | some pr =>
        obtain ⟨t1, r1⟩ := pr
        rw [hTp] at h2
        obtain ⟨lastT, hlT, heqT⟩ := ihT ts t1 r1 hTp
        obtain ⟨last, hl, heq⟩ := ihEL t1 r1 e rest h2 lastT hlT
        exact ⟨last, hl, fun prev => (heqT prev).trans heq⟩
    exact ⟨hF, hTL, hT, hEL, hE⟩

/-- On a fully parsed token list the unary-folding pass is the identity. -/
theorem specParse_foldUnary_id (fuel : Nat) (ts : List Token) (e : Expr)
    (h : specParseE fuel ts = some (e, [])) : foldUnary none ts = ts := by
  obtain ⟨last, hl, heq⟩ := (binpos_invariant fuel).2.2.2.2 ts e [] h
  refine foldUnary_id none ts ?_
  rw [heq none]
  rfl

/-- The shunting-yard conversion of a fully parsed token list is exactly
the postorder serialization of the parsed expression. -/
theorem infix_to_rpn_parsed (fuel : Nat) (ts : List Token) (e : Expr)
    (h : specParseE fuel ts = some (e, [])) :
    infix_to_rpn ts = .ok (rpnOf e) := by
  unfold infix_to_rpn
  rw [specParse_foldUnary_id fuel ts e h]
  obtain ⟨P, outPart, hP, hsplit, heq⟩ :=
    (shunt_invariant fuel).2.2.2.2 ts e [] h [] [] (Or.inl rfl)
  have hnp : "(" ∉ P := by
    intro hc
    rcases hP "(" hc with hx | hx | hx | hx <;> exact absurd hx (by decide)
  rw [heq, List.append_nil, List.nil_append, rpnLoop_nil, drainStack_ok P hnp]
  rw [show (Except.ok (P.map Token.sym)).map (fun d => outPart ++ d) =
    Except.ok (outPart ++ P.map Token.sym) from rfl, ← hsplit]

/-! ## Orchestrator lemmas -/

/-- The rewrapping boundary always yields a `SafeEvalError` kind. -/
theorem wrapExc_isSafeEvalError (e : Exc) : (wrapExc e).isSafeEvalError = true := by
  unfold wrapExc
  split
  · assumption
  · rfl

/-- Empty or whitespace-only input fails with `InvalidExpressionError`. -/
theorem safe_evaluate_expression_empty (s : String)
    (h : stripChars s.data = []) :
    safe_evaluate_expression s =
      .error (.invalidExpressionError "Expression cannot be empty or just whitespace.") := by
  simp [safe_evaluate_expression, h]

/-- Every error escaping `safe_evaluate_expression` belongs to the
`SafeEvalError` taxonomy. -/
theorem safe_evaluate_expression_taxonomy (s : String) (e : Exc)
    (h : safe_evaluate_expression s = .error e) : e.isSafeEvalError = true := by
  simp only [safe_evaluate_expression] at h
  split at h
  · injection h with h; rw [← h]; rfl
  · split at h
    · injection h with h; rw [← h]; exact wrapExc_isSafeEvalError _
    · split at h
      · injection h with h; rw [← h]; rfl
      · split at h
        · injection h with h; rw [← h]; exact wrapExc_isSafeEvalError _
        · split at h
          · split at h
            · injection h with h; rw [← h]; rfl
            · injection h with h; rw [← h]; rfl
          · split at h
            · injection h with h; rw [← h]; exact wrapExc_isSafeEvalError _
            · exact absurd h (by simp)

/-- Full functional correctness on parsed input: when the stripped input
tokenizes, the token list is a well-formed arithmetic expression of the
standard grammar, and its standard evaluation does not divide by zero,
the evaluator returns exactly the standard value. -/
theorem safe_evaluate_expression_correct (s : String) (fuel : Nat)
    (ts : List Token) (e : Expr) (v : ℚ)
    (htok : tokenizeLoop ((stripChars s.data).length + 1) (stripChars s.data) =
      .ok ts)
    (hparse : specParseE fuel ts = some (e, []))
    (heval : e.evalOpt = some v) :
    safe_evaluate_expression s = .ok v := by
  have hne : ts ≠ [] := by
    intro hc
    rw [hc, specParseE_nil] at hparse
    exact Option.noConfusion hparse
  have hstrip : stripChars s.data ≠ [] := by
    intro hc
    rw [hc] at htok
    have hts : ([] : List Token) = ts := by
      have h0 : tokenizeLoop (([] : List Char).length + 1) ([] : List Char) =
          .ok ([] : List Token) := rfl
      rw [h0] at htok
      injection htok
    exact hne hts.symm
  simp only [safe_evaluate_expression]
  rw [if_neg hstrip, htok]
  simp only [if_neg hne, infix_to_rpn_parsed fuel ts e hparse,
    if_neg (rpnOf_ne_nil e), evaluate_rpn_rpnOf e v heval]

/-! ## Claim theorems -/

/-- Claim C1, counterexample: the input with a number followed by an empty
parenthesis pair does not fail; the number passes straight to the output
queue, the parentheses cancel, and the evaluator returns the number. -/
theorem claim_C1_counterexample : safe_evaluate_expression "5 ()" = .ok 5 := by
  with_unfolding_all decide

/-- Claim C1 (amended): the input with a number followed by an empty
parenthesis pair evaluates to that number, and the orchestrator's
empty-RPN-with-numbers guard can never fire, because a successful RPN
conversion of a token list containing a number is never empty. -/
theorem claim_C1 : safe_evaluate_expression "5 ()" = .ok 5 ∧
    ∀ ts rpn, infix_to_rpn ts = .ok rpn → ts.any isNumTok = true → rpn ≠ [] :=
  ⟨by with_unfolding_all decide,
   fun ts rpn h hn => infix_to_rpn_num_nonempty ts rpn h hn⟩

/-- Claim C1, witness: the guard statement applied at a concrete input. -/
theorem claim_C1_witness : ([Token.num 5] : List Token) ≠ [] :=
  claim_C1.2 [Token.num 5] [Token.num 5] (by decide) (by decide)

/-- Claim C2: a `+`/`-` token is folded into the immediately following
number (negating for `-`) exactly when the unary condition holds — it is
first or preceded by one of the five trigger symbols, and followed by a
number — and is kept as an ordinary token otherwise; consequently
`safe_evaluate_expression "5*-2" = -10` and
`safe_evaluate_expression "1 - -1" = 2`. -/
theorem claim_C2 :
    (∀ prev t v rest, unaryCond prev t (Token.num v :: rest) = true →
      foldUnary prev (t :: Token.num v :: rest) =
        Token.num (if t = Token.sym "-" then -v else v) ::
          foldUnary (some (Token.num v)) rest) ∧
    (∀ prev t rest, unaryCond prev t rest = false →
      foldUnary prev (t :: rest) = t :: foldUnary (some t) rest) ∧
    safe_evaluate_expression "5*-2" = .ok (-10) ∧
    safe_evaluate_expression "1 - -1" = .ok 2 := by
  refine ⟨?_, ?_, by with_unfolding_all decide, by with_unfolding_all decide⟩
  · intro prev t v rest h
    have hab : (isSignSym t && prevAllowsUnary prev) = true := by
      simp only [unaryCond, nextIsNum, Bool.and_true] at h
      exact h
    exact if_pos hab
  · intro prev t rest h
    match rest with
    | [] => rfl
    | .num v :: r2 =>
      have hab : (isSignSym t && prevAllowsUnary prev) = false := by
        simp only [unaryCond, nextIsNum, Bool.and_true] at h
        exact h
      exact if_neg (by rw [hab]; simp)
    | .sym s2 :: r2 => rfl

/-- Claim C2, witness: the folding rule and the keeping rule applied at
concrete inputs. -/
theorem claim_C2_witness :
    foldUnary (some (Token.sym "*")) [Token.sym "-", Token.num 2] =
      Token.num (if Token.sym "-" = Token.sym "-" then -2 else 2) ::
        foldUnary (some (Token.num 2)) [] ∧
    foldUnary (some (Token.num 1)) (Token.sym "-" :: [Token.sym "-", Token.num 1]) =
      Token.sym "-" :: foldUnary (some (Token.sym "-")) [Token.sym "-", Token.num 1] :=
  ⟨claim_C2.1 (some (Token.sym "*")) (Token.sym "-") 2 [] (by decide),
   claim_C2.2.1 (some (Token.num 1)) (Token.sym "-")
     [Token.sym "-", Token.num 1] (by decide)⟩

/-- Claim C3: a binary operator pops the stack top as the second operand
`op2` and the next value as the first operand `op1` and computes
`op1 <op> op2`; subtraction and division use the original left operand
first, so `safe_evaluate_expression "10 - 3" = 7`. -/
theorem claim_C3 :
    (∀ s rest op1 op2 st, inOperators s = true → ¬(s = "/" ∧ op2 = 0) →
      evalRpnLoop (Token.sym s :: rest) (op2 :: op1 :: st) =
        evalRpnLoop rest (applyOp s op1 op2 :: st)) ∧
    (∀ a b : ℚ, applyOp "-" a b = a - b ∧ applyOp "/" a b = a / b) ∧
    safe_evaluate_expression "10 - 3" = .ok 7 :=
  ⟨fun s rest op1 op2 st hs hdz => evalRpnLoop_binop s rest op1 op2 st hs hdz,
   fun a b => ⟨by simp [applyOp], by simp [applyOp]⟩,
   by with_unfolding_all decide⟩

/-- Claim C3, witness: the pop order applied at a concrete state. -/
theorem claim_C3_witness :
    evalRpnLoop [Token.sym "-"] [3, 10] = evalRpnLoop [] [applyOp "-" 10 3] :=
  claim_C3.1 "-" [] 10 3 [] (by decide) (by decide)

/-- Claim C4: applying `/` with second operand `0` raises
`DivisionByZeroError` before the division is attempted, for every state
of the evaluator; in particular `"1 / 0"` fails with that error. -/
theorem claim_C4 :
    (∀ rest op1 st, evalRpnLoop (Token.sym "/" :: rest) (0 :: op1 :: st) =
      .error (.divisionByZeroError "Division by zero in expression.")) ∧
    safe_evaluate_expression "1 / 0" =
      .error (.divisionByZeroError "Division by zero in expression.") :=
  ⟨fun rest op1 st => evalRpnLoop_divzero rest op1 st,
   by with_unfolding_all decide⟩

/-- Claim C5: on any input whose stripped text tokenizes into a token
list generated by the standard grammar of numbers, the four operators and
balanced parentheses, the evaluator returns exactly the value of the
standard precedence, left-associative evaluation; in particular
`"(2 + 3) * 4" = 20` and `"(5-3)*8/4" = 4`. -/
theorem claim_C5 :
    (∀ (s : String) (fuel : Nat) (ts : List Token) (e : Expr) (v : ℚ),
      tokenizeLoop ((stripChars s.data).length + 1) (stripChars s.data) = .ok ts →
      specParseE fuel ts = some (e, []) →
      Expr.evalOpt e = some v →
      safe_evaluate_expression s = .ok v) ∧
    safe_evaluate_expression "(2 + 3) * 4" = .ok 20 ∧
    safe_evaluate_expression "(5-3)*8/4" = .ok 4 :=
  ⟨fun s fuel ts e v h1 h2 h3 =>
    safe_evaluate_expression_correct s fuel ts e v h1 h2 h3,
   by with_unfolding_all decide,
   by with_unfolding_all decide⟩

/-- Claim C5, witness: the general correctness statement applied at a
concrete input, parse tree and value. -/
theorem claim_C5_witness : safe_evaluate_expression "1 + 1" = .ok 2 :=
  claim_C5.1 "1 + 1" 10 [Token.num 1, Token.sym "+", Token.num 1]
    (Expr.bin .add (.lit 1) (.lit 1)) 2
    (by with_unfolding_all decide) (by decide) (by with_unfolding_all decide)

/-- Claim C6: a right parenthesis finding no matching left parenthesis on
the operator stack raises `UnbalancedParenthesesError` (missing left),
and a left parenthesis remaining on the stack after all tokens are
consumed raises `UnbalancedParenthesesError` (missing right); in
particular `"(1 + 2"` fails with `UnbalancedParenthesesError`. -/
theorem claim_C6 :
    (∀ rest out stk, "(" ∉ stk →
      rpnLoop (Token.sym ")" :: rest) out stk =
        .error (.unbalancedParenthesesError "Mismatched or missing left parenthesis.")) ∧
    (∀ out stk, "(" ∈ stk →
      rpnLoop [] out stk =
        .error (.unbalancedParenthesesError "Mismatched or missing right parenthesis.")) ∧
    safe_evaluate_expression "(1 + 2" =
      .error (.unbalancedParenthesesError "Mismatched or missing right parenthesis.") := by
  refine ⟨?_, ?_, by with_unfolding_all decide⟩
  · intro rest out stk h
    rw [rpnLoop_rparen_step, popUntilParen_none stk h]
  · intro out stk h
    rw [rpnLoop_nil, drainStack_err stk h]
    rfl

/-- Claim C6, witness: both unbalanced-parenthesis failures at concrete
states. -/
theorem claim_C6_witness :
    rpnLoop [Token.sym ")"] [] [] =
      .error (.unbalancedParenthesesError "Mismatched or missing left parenthesis.") ∧
    rpnLoop [] [] ["("] =
      .error (.unbalancedParenthesesError "Mismatched or missing right parenthesis.") :=
  ⟨claim_C6.1 [] [] [] (by decide), claim_C6.2.1 [] ["("] (by decide)⟩

/-- Claim C7: a binary operator with fewer than two stacked operands
raises `InvalidExpressionError`, and a final operand stack holding any
count other than one raises `InvalidExpressionError`; in particular
`"1 +"` fails with `InvalidExpressionError`. -/
theorem claim_C7 :
    (∀ s rest st, inOperators s = true → st.length < 2 →
      evalRpnLoop (Token.sym s :: rest) st =
        .error (.invalidExpressionError
          "Invalid RPN expression: not enough operands for operator.")) ∧
    (∀ rpn st, evalRpnLoop rpn [] = .ok st → st.length ≠ 1 →
      evaluate_rpn rpn =
        .error (.invalidExpressionError
          "Invalid RPN expression: stack should have 1 result.")) ∧
    safe_evaluate_expression "1 +" =
      .error (.invalidExpressionError
        "Invalid RPN expression: not enough operands for operator.") :=
  ⟨fun s rest st hs hlen => evalRpnLoop_short s rest st hs hlen,
   fun rpn st h hlen => evaluate_rpn_badstack rpn st h hlen,
   by with_unfolding_all decide⟩

/-- Claim C7, witness: both evaluator failures at concrete states. -/
theorem claim_C7_witness :
    evalRpnLoop [Token.sym "+"] [] =
      .error (.invalidExpressionError
        "Invalid RPN expression: not enough operands for operator.") ∧
    evaluate_rpn [Token.num 1, Token.num 2] =
      .error (.invalidExpressionError
        "Invalid RPN expression: stack should have 1 result.") :=
  ⟨claim_C7.1 "+" [] [] (by decide) (by decide),
   claim_C7.2.1 [Token.num 1, Token.num 2] [2, 1] (by decide) (by decide)⟩

/-- Claim C8: for every string input, the result is a value or an error
in the `SafeEvalError` taxonomy (any non-taxonomy failure would be
rewrapped as the base kind, so none escapes), and empty or
whitespace-only input fails with `InvalidExpressionError`.  Non-string
input raising `TypeError` lies outside this typed embedding. -/
theorem claim_C8 : ∀ s : String,
    (stripChars s.data = [] →
      safe_evaluate_expression s =
        .error (.invalidExpressionError "Expression cannot be empty or just whitespace.")) ∧
    (∀ e, safe_evaluate_expression s = .error e → e.isSafeEvalError = true) :=
  fun s => ⟨safe_evaluate_expression_empty s,
    fun e h => safe_evaluate_expression_taxonomy s e h⟩

/-- Claim C8, witness: whitespace-only input at a concrete string. -/
theorem claim_C8_witness :
    safe_evaluate_expression "  " =
      .error (.invalidExpressionError "Expression cannot be empty or just whitespace.") ∧
    (Exc.invalidExpressionError
      "Expression cannot be empty or just whitespace.").isSafeEvalError = true :=
  ⟨(claim_C8 "  ").1 (by decide),
   (claim_C8 "  ").2 _ ((claim_C8 "  ").1 (by decide))⟩

/-- Claim C9: every token of a successful `infix_to_rpn` output is a
number or one of the four binary operator symbols; no parenthesis
survives the conversion. -/
theorem claim_C9 : ∀ ts rpn, infix_to_rpn ts = .ok rpn →
    ∀ t ∈ rpn, isNumTok t = true ∨ t = Token.sym "+" ∨ t = Token.sym "-" ∨
      t = Token.sym "*" ∨ t = Token.sym "/" := by
  intro ts rpn h t ht
  exact rpnLoop_ok_tokens (foldUnary none ts) [] [] rpn h
    (fun u hu => absurd hu (List.not_mem_nil u))
    (fun q hq => absurd hq (List.not_mem_nil q)) t ht

/-- Claim C9, witness: the invariant applied at a concrete conversion. -/
theorem claim_C9_witness :
    isNumTok (Token.num 5) = true ∨ Token.num 5 = Token.sym "+" ∨
      Token.num 5 = Token.sym "-" ∨ Token.num 5 = Token.sym "*" ∨
      Token.num 5 = Token.sym "/" :=
  claim_C9 [Token.num 5] [Token.num 5] (by decide) (Token.num 5) (by decide)

/-- Claim C10: a token list containing at least one number whose
conversion succeeds always yields a non-empty RPN sequence — every number
token is unconditionally appended to the output queue — so the
orchestrator's empty-RPN-with-numbers branch is unreachable. -/
theorem claim_C10 : ∀ ts rpn, infix_to_rpn ts = .ok rpn →
    ts.any isNumTok = true → rpn ≠ [] :=
  fun ts rpn h hn => infix_to_rpn_num_nonempty ts rpn h hn

/-- Claim C10, witness: the statement applied at a concrete conversion. -/
theorem claim_C10_witness : ([Token.num 3] : List Token) ≠ [] :=
  claim_C10 [Token.num 3] [Token.num 3] (by decide) (by decide)
